import Mathlib

/-!
Verification of the incremental NNUE evaluation subsystem of the Clarity
chess engine (files `src/globals.cpp` and `src/nnue.h`, the latter a vendored
Stormphrax perspective network).

Modelling conventions:
* C++ `int16_t` stores are modelled as `Int` values normalised by `wrap16`
  (two's-complement wrap-around at width 16), applied exactly where the C++
  code converts an `int` arithmetic result back to `int16_t`.
* Fixed-size C++ arrays are modelled as functions `Nat → Int`; the update
  loops touch exactly the indices `0 .. Layer1Size-1`, as in the source.
* The `std::vector<Accumulator>` stack of `NnueState` is modelled as a
  `List Accumulator` kept most-recent-first: the list head is the vector's
  back element, i.e. the current accumulator `m_curr`.
* The `int32_t` dot-product accumulation in `forward` is modelled as exact
  `Int` arithmetic (signed `int` overflow is undefined behaviour in C++ and
  assumed absent), and the final `* Scale / Q` uses truncating division
  `Int.tdiv`, matching C++ signed integer division.
-/

namespace clarity

/-- From `globals.cpp`: `int getType(int value) { return value & 7; }` -/
def getType (value : Nat) : Nat := value &&& 7

/-- From `globals.cpp`: `int getColor(int value) { return value >> 3; }` -/
def getColor (value : Nat) : Nat := value >>> 3

namespace eval

def InputSize : Nat := 768

def Layer1Size : Nat := 768

def Scale : Int := 400

def Q : Int := 255 * 64

/-- Conversion of an `int` arithmetic result back to an `int16_t` store:
two's-complement wrap-around into `[-32768, 32767]`. -/
def wrap16 (z : Int) : Int := (z + 32768) % 65536 - 32768

/-- `struct Network`: featureWeights (768×768 rows, flattened), featureBiases
(length 768), outputWeights (length 2×768), outputBias. -/
structure Network where
  featureWeights : Nat → Int
  featureBiases : Nat → Int
  outputWeights : Nat → Int
  outputBias : Int

/-- `struct Accumulator`: two hidden vectors of length `Layer1Size`. -/
structure Accumulator where
  black : Nat → Int
  white : Nat → Int

instance : Inhabited Accumulator := ⟨⟨fun _ => 0, fun _ => 0⟩⟩

/-- `Accumulator::init`: copies the bias vector into both perspective slots. -/
def Accumulator.init (bias : Nat → Int) : Accumulator :=
  { black := fun i => bias i, white := fun i => bias i }

/-- A hidden vector whose entries (within the live range) are representable
as `int16_t`, as every C++ accumulator vector is. -/
def vec16 (v : Nat → Int) : Prop :=
  ∀ i, i < Layer1Size → -32768 ≤ v i ∧ v i < 32768

/-- An accumulator state whose two vectors are `int16_t`-representable. -/
def acc16 (acc : Accumulator) : Prop := vec16 acc.black ∧ vec16 acc.white

/-- `NnueState::featureIndices`: black- and white-perspective feature indices
for a piece identity and a square. `!color` on the `{0,1}`-valued C++
`color` variable is `1 - color`. -/
def featureIndices (piece sq : Nat) : Nat × Nat :=
  let ColorStride : Nat := 64 * 6
  let PieceStride : Nat := 64
  let type := getType piece
  let color : Nat := if getColor piece = 1 then 0 else 1
  ((1 - color) * ColorStride + type * PieceStride + (sq ^^^ 0x38),
   color * ColorStride + type * PieceStride + sq)

/-- `NnueState::subtractAndAddToAll`: fused per-element
`input[i] += delta[addOffset + i] - delta[subOffset + i]` over the hidden
dimension. -/
def subtractAndAddToAll (input delta : Nat → Int) (subOffset addOffset : Nat) :
    Nat → Int :=
  fun i =>
    if i < Layer1Size then wrap16 (input i + (delta (addOffset + i) - delta (subOffset + i)))
    else input i

/-- `NnueState::addToAll`: per-element `input[i] += delta[offset + i]`. -/
def addToAll (input delta : Nat → Int) (offset : Nat) : Nat → Int :=
  fun i =>
    if i < Layer1Size then wrap16 (input i + delta (offset + i))
    else input i

/-- `NnueState::subtractFromAll`: per-element `input[i] -= delta[offset + i]`. -/
def subtractFromAll (input delta : Nat → Int) (offset : Nat) : Nat → Int :=
  fun i =>
    if i < Layer1Size then wrap16 (input i - delta (offset + i))
    else input i

/-- Static `NnueState::moveFeature` acting on one accumulator. -/
def moveFeature (net : Network) (accumulator : Accumulator) (piece src dst : Nat) :
    Accumulator :=
  let blackSrc := (featureIndices piece src).1
  let whiteSrc := (featureIndices piece src).2
  let blackDst := (featureIndices piece dst).1
  let whiteDst := (featureIndices piece dst).2
  { black := subtractAndAddToAll accumulator.black net.featureWeights
      (blackSrc * Layer1Size) (blackDst * Layer1Size)
    white := subtractAndAddToAll accumulator.white net.featureWeights
      (whiteSrc * Layer1Size) (whiteDst * Layer1Size) }

/-- Static `NnueState::activateFeature` acting on one accumulator. -/
def activateFeature (net : Network) (accumulator : Accumulator) (piece sq : Nat) :
    Accumulator :=
  let blackIdx := (featureIndices piece sq).1
  let whiteIdx := (featureIndices piece sq).2
  { black := addToAll accumulator.black net.featureWeights (blackIdx * Layer1Size)
    white := addToAll accumulator.white net.featureWeights (whiteIdx * Layer1Size) }

/-- Static `NnueState::deactivateFeature` acting on one accumulator. -/
def deactivateFeature (net : Network) (accumulator : Accumulator) (piece sq : Nat) :
    Accumulator :=
  let blackIdx := (featureIndices piece sq).1
  let whiteIdx := (featureIndices piece sq).2
  { black := subtractFromAll accumulator.black net.featureWeights (blackIdx * Layer1Size)
    white := subtractFromAll accumulator.white net.featureWeights (whiteIdx * Layer1Size) }

/-- `std::clamp(static_cast<int32_t>(x), 0, 255)` as in `forward`. -/
def clippedReLU (x : Int) : Int := if x < 0 then 0 else if 255 < x then 255 else x

/-- `NnueState::forward`: clipped activation then the two dot products
against the two halves of the output-weight block. -/
def forward (us them weights : Nat → Int) : Int :=
  Finset.sum (Finset.range Layer1Size) (fun i => clippedReLU (us i) * weights i) +
    Finset.sum (Finset.range Layer1Size)
      (fun i => clippedReLU (them i) * weights (Layer1Size + i))

/-- Static `NnueState::evaluate`: perspective selection (`stm = 0` is black),
forward pass, output bias, and `* Scale / Q` rescale (C++ truncating
division). -/
def evaluate (net : Network) (accumulator : Accumulator) (stm : Nat) : Int :=
  let output :=
    if stm = 0 then forward accumulator.black accumulator.white net.outputWeights
    else forward accumulator.white accumulator.black net.outputWeights
  Int.tdiv ((output + net.outputBias) * Scale) Q

/-- `class NnueState`: the accumulator stack, most-recent-first (the head of
the list is `m_accumulatorStack.back()`, the element `m_curr` points at). -/
structure NnueState where
  stack : List Accumulator

/-- The current accumulator `*m_curr` = the vector's back element. -/
def NnueState.curr (s : NnueState) : Accumulator := s.stack.headI

/-- `NnueState::push`: appends a copy of the current accumulator, which
becomes the new current. -/
def NnueState.push (s : NnueState) : NnueState := ⟨s.curr :: s.stack⟩

/-- `NnueState::pop`: `pop_back` and re-point `m_curr` at the new back. -/
def NnueState.pop (s : NnueState) : NnueState := ⟨s.stack.tail⟩

/-- `NnueState::reset`: clears the stack and pushes one accumulator
initialised from the network's feature biases. -/
def NnueState.reset (net : Network) (_s : NnueState) : NnueState :=
  ⟨[Accumulator.init net.featureBiases]⟩

/-- Stack depth: the number of accumulators currently on the stack. -/
def NnueState.depth (s : NnueState) : Nat := s.stack.length

/-- Member `NnueState::moveFeature`: updates the current accumulator. -/
def NnueState.moveFeature (net : Network) (s : NnueState) (piece src dst : Nat) :
    NnueState :=
  ⟨eval.moveFeature net s.curr piece src dst :: s.stack.tail⟩

/-- Member `NnueState::activateFeature`: updates the current accumulator. -/
def NnueState.activateFeature (net : Network) (s : NnueState) (piece sq : Nat) :
    NnueState :=
  ⟨eval.activateFeature net s.curr piece sq :: s.stack.tail⟩

/-- Member `NnueState::deactivateFeature`: updates the current accumulator. -/
def NnueState.deactivateFeature (net : Network) (s : NnueState) (piece sq : Nat) :
    NnueState :=
  ⟨eval.deactivateFeature net s.curr piece sq :: s.stack.tail⟩

/-- Member `NnueState::evaluate`: reads the current accumulator only. -/
def NnueState.evaluate (net : Network) (s : NnueState) (stm : Nat) : Int :=
  eval.evaluate net s.curr stm

/-- A piece identity that is valid per the spec encoding: low 3 bits a piece
type `0..5`, bit 3 the colour, higher bits clear. -/
def validPiece (piece : Nat) : Prop := piece < 16 ∧ getType piece ≤ 5

/-- Stack operations for the depth-invariant claim. -/
inductive StackOp where
  | push : StackOp
  | pop : StackOp
deriving DecidableEq, BEq

/-- Run a sequence of push/pop operations on a state. -/
def runOps (s : NnueState) : List StackOp → NnueState
  | [] => s
  | StackOp.push :: rest => runOps s.push rest
  | StackOp.pop :: rest => runOps s.pop rest

/-- A push/pop sequence respects the pop precondition (depth > 1 at each
pop), starting from depth `d`. -/
def legalFrom (d : Nat) : List StackOp → Bool
  | [] => true
  | StackOp.push :: rest => legalFrom (d + 1) rest
  | StackOp.pop :: rest => decide (1 < d) && legalFrom (d - 1) rest

/-- Evaluation as the spec's prose describes it, assembled independently of
`evaluate`: us/them selection from the side to move, clamp to `[0, 255]`,
two dot products against the two halves of the output-weight block, output
bias, and the fixed `Scale / Q` rescale. -/
def clampSpec (x : Int) : Int := max 0 (min x 255)

/-- Dot product of two hidden-size vectors. -/
def dotSpec (a b : Nat → Int) : Int :=
  Finset.sum (Finset.range Layer1Size) (fun i => a i * b i)

/-- Spec-side rendition of `evaluate`, for the refinement claim. -/
def evaluateSpec (net : Network) (accumulator : Accumulator) (stm : Nat) : Int :=
  let us := if stm = 0 then accumulator.black else accumulator.white
  let them := if stm = 0 then accumulator.white else accumulator.black
  let total :=
    dotSpec (fun i => clampSpec (us i)) (fun i => net.outputWeights i) +
      dotSpec (fun i => clampSpec (them i)) (fun i => net.outputWeights (Layer1Size + i))
  Int.tdiv ((total + net.outputBias) * Scale) Q

/-- Concrete all-zero network used to instantiate witnesses. -/
def net0 : Network :=
  { featureWeights := fun _ => 0
    featureBiases := fun _ => 0
    outputWeights := fun _ => 0
    outputBias := 0 }

/-- Concrete all-zero accumulator used to instantiate witnesses. -/
def acc0 : Accumulator := { black := fun _ => 0, white := fun _ => 0 }

/-- The all-zero accumulator is int16-representable. -/
theorem acc0_acc16 : acc16 acc0 := by
  constructor <;> intro i _ <;> simp [acc0, vec16]

/-- For a valid piece the C++ colour variable is `1 - colourBit` where
`colourBit = getColor piece` is 1 for white. -/
theorem getColor_le_one (piece : Nat) (hp : piece < 16) : getColor piece ≤ 1 := by
  have h : getColor piece = piece / 8 := by
    simp [getColor, Nat.shiftRight_eq_div_pow]
  omega

/-- C1 (amended): for every valid piece and square the indexer returns
black index = colourBit × 384 + type × 64 + (square XOR 56) and white index
= (1 − colourBit) × 384 + type × 64 + square, where colourBit is 1 for a
white piece — i.e. the colour offsets are the mirror image of what the
claim as stated predicts. -/
theorem featureIndices_eq (piece sq : Nat) (hp : piece < 16) (_ht : getType piece ≤ 5)
    (_hs : sq < 64) :
    featureIndices piece sq =
      (getColor piece * 384 + getType piece * 64 + (sq ^^^ 56),
       (1 - getColor piece) * 384 + getType piece * 64 + sq) := by
  have hc := getColor_le_one piece hp
  by_cases h : getColor piece = 1
  · simp [featureIndices, h]
  · have h0 : getColor piece = 0 := by omega
    simp [featureIndices, h, h0]

/-- C1 witness: the amended index formula at the white pawn (piece 8) on
square a1 (square 0). -/
theorem featureIndices_eq_witness :
    (8 : Nat) < 16 ∧ getType 8 ≤ 5 ∧ (0 : Nat) < 64 ∧
      featureIndices 8 0 =
        (getColor 8 * 384 + getType 8 * 64 + ((0 : Nat) ^^^ 56),
         (1 - getColor 8) * 384 + getType 8 * 64 + 0) :=
  ⟨by decide, by decide, by decide, featureIndices_eq 8 0 (by decide) (by decide) (by decide)⟩

/-- C1 counterexample: for the white pawn (piece 8, colourBit 1) on square 0
the claim as stated predicts white index `1 × 384 + 0 × 64 + 0 = 384` and
black index `0 × 384 + 0 × 64 + 56 = 56`; the code returns white index 0 and
black index 440. -/
theorem featureIndices_claim_false :
    ¬ ((featureIndices 8 0).2 = getColor 8 * 384 + getType 8 * 64 + 0 ∧
       (featureIndices 8 0).1 = (1 - getColor 8) * 384 + getType 8 * 64 + ((0 : Nat) ^^^ 56)) := by
  decide

/-- Composing two int16 stores: the outer wrap of a wrapped summand equals
the wrap of the exact sum. -/
theorem wrap16_wrap16_add (a b : Int) : wrap16 (wrap16 a + b) = wrap16 (a + b) := by
  unfold wrap16
  omega

/-- The fused update of `subtractAndAddToAll` agrees pointwise with
subtracting then adding. -/
theorem subtractAndAddToAll_eq (input delta : Nat → Int) (subOffset addOffset : Nat) :
    subtractAndAddToAll input delta subOffset addOffset =
      addToAll (subtractFromAll input delta subOffset) delta addOffset := by
  funext i
  simp only [subtractAndAddToAll, addToAll, subtractFromAll]
  by_cases hi : i < Layer1Size
  · simp only [hi, if_true]
    unfold wrap16
    omega
  · simp [hi]

/-- C2: `moveFeature(p, src, dst)` produces an accumulator bit-for-bit equal
to the one produced by `deactivateFeature(p, src)` followed by
`activateFeature(p, dst)`, for every accumulator state and valid
piece/square pair with src ≠ dst. -/
theorem moveFeature_fusion (net : Network) (accumulator : Accumulator) (piece src dst : Nat)
    (_hp : validPiece piece) (_hsrc : src < 64) (_hdst : dst < 64) (_hne : src ≠ dst) :
    moveFeature net accumulator piece src dst =
      activateFeature net (deactivateFeature net accumulator piece src) piece dst := by
  simp [moveFeature, activateFeature, deactivateFeature, subtractAndAddToAll_eq]

/-- C2 witness: fusion at the white pawn moved from square 0 to square 1 on
the all-zero network and accumulator. -/
theorem moveFeature_fusion_witness :
    validPiece 8 ∧ (0 : Nat) < 64 ∧ (1 : Nat) < 64 ∧ (0 : Nat) ≠ 1 ∧
      moveFeature net0 acc0 8 0 1 =
        activateFeature net0 (deactivateFeature net0 acc0 8 0) 8 1 :=
  ⟨⟨by decide, by decide⟩, by decide, by decide, by decide,
    moveFeature_fusion net0 acc0 8 0 1 ⟨by decide, by decide⟩ (by decide) (by decide)
      (by decide)⟩

/-- Subtracting a weight row immediately after adding it restores an
int16-representable vector exactly. -/
theorem subtractFromAll_addToAll (input delta : Nat → Int) (offset : Nat)
    (h : vec16 input) :
    subtractFromAll (addToAll input delta offset) delta offset = input := by
  funext i
  simp only [subtractFromAll, addToAll]
  by_cases hi : i < Layer1Size
  · obtain ⟨h1, h2⟩ := h i hi
    simp only [hi, if_true]
    unfold wrap16
    omega
  · simp [hi]

/-- C5: `activateFeature(p, s)` followed by `deactivateFeature(p, s)`
restores the accumulator bit-for-bit, for every int16-representable
accumulator state and valid piece/square. -/
theorem activate_then_deactivate (net : Network) (accumulator : Accumulator) (piece sq : Nat)
    (ha : acc16 accumulator) (_hp : validPiece piece) (_hs : sq < 64) :
    deactivateFeature net (activateFeature net accumulator piece sq) piece sq =
      accumulator := by
  obtain ⟨b, w⟩ := accumulator
  obtain ⟨hb, hw⟩ := ha
  simp only [activateFeature, deactivateFeature]
  rw [subtractFromAll_addToAll _ _ _ hb, subtractFromAll_addToAll _ _ _ hw]

/-- C5 witness: activate-then-deactivate of the white pawn on square 0 over
the all-zero network and accumulator. -/
theorem activate_then_deactivate_witness :
    acc16 acc0 ∧ validPiece 8 ∧ (0 : Nat) < 64 ∧
      deactivateFeature net0 (activateFeature net0 acc0 8 0) 8 0 = acc0 :=
  ⟨acc0_acc16, ⟨by decide, by decide⟩, by decide,
    activate_then_deactivate net0 acc0 8 0 acc0_acc16 ⟨by decide, by decide⟩ (by decide)⟩

/-- A fused update whose subtracted and added rows coincide fixes every
int16-representable vector. -/
theorem subtractAndAddToAll_self (input delta : Nat → Int) (offset : Nat)
    (h : vec16 input) :
    subtractAndAddToAll input delta offset offset = input := by
  funext i
  simp only [subtractAndAddToAll]
  by_cases hi : i < Layer1Size
  · obtain ⟨h1, h2⟩ := h i hi
    simp only [hi, if_true]
    unfold wrap16
    omega
  · simp [hi]

/-- C10: `moveFeature(p, s, s)` with source equal to destination leaves the
accumulator bit-for-bit unchanged, for every int16-representable
accumulator state and valid piece/square. -/
theorem moveFeature_same_square (net : Network) (accumulator : Accumulator) (piece sq : Nat)
    (ha : acc16 accumulator) (_hp : validPiece piece) (_hs : sq < 64) :
    moveFeature net accumulator piece sq sq = accumulator := by
  obtain ⟨b, w⟩ := accumulator
  obtain ⟨hb, hw⟩ := ha
  simp only [moveFeature]
  rw [subtractAndAddToAll_self _ _ _ hb, subtractAndAddToAll_self _ _ _ hw]

/-- C10 witness: a null move of the white pawn on square 0 over the all-zero
network and accumulator. -/
theorem moveFeature_same_square_witness :
    acc16 acc0 ∧ validPiece 8 ∧ (0 : Nat) < 64 ∧ moveFeature net0 acc0 8 0 0 = acc0 :=
  ⟨acc0_acc16, ⟨by decide, by decide⟩, by decide,
    moveFeature_same_square net0 acc0 8 0 acc0_acc16 ⟨by decide, by decide⟩ (by decide)⟩

/-- The if-chain `std::clamp` of the code agrees with the max/min clamp of
the spec's prose. -/
theorem clippedReLU_eq_clampSpec (x : Int) : clippedReLU x = clampSpec x := by
  simp only [clippedReLU, clampSpec, Int.max_def, Int.min_def]
  split_ifs <;> omega

/-- The forward pass is the pair of clamped dot products of the spec. -/
theorem forward_eq_spec (us them weights : Nat → Int) :
    forward us them weights =
      dotSpec (fun i => clampSpec (us i)) (fun i => weights i) +
        dotSpec (fun i => clampSpec (them i)) (fun i => weights (Layer1Size + i)) := by
  unfold forward dotSpec
  refine congrArg₂ (fun a b : Int => a + b) ?_ ?_ <;>
    exact Finset.sum_congr rfl fun i _ => by simp [clippedReLU_eq_clampSpec]

/-- C3: `evaluate(stm)` equals the spec's composition: us/them ordering
selected from the side to move (black vector first when `stm` is black),
clamp of each hidden value to `[0, 255]`, dot products of the us vector with
the first half and the them vector with the second half of the
output-weight block, plus the output bias, rescaled by `Scale / Q`; it is a
pure function of the accumulator, the weights and `stm`. -/
theorem evaluate_eq_spec (net : Network) (accumulator : Accumulator) (stm : Nat) :
    evaluate net accumulator stm = evaluateSpec net accumulator stm := by
  unfold evaluate evaluateSpec
  by_cases h : stm = 0 <;> simp [h, forward_eq_spec]

/-- C4: `push()` followed immediately by `pop()` restores the whole stack,
and in particular the current element, bit-for-bit, on every non-empty
stack state. -/
theorem push_pop_roundtrip (s : NnueState) (_h : s.stack ≠ []) :
    (s.push).pop = s ∧ ((s.push).pop).curr = s.curr :=
  ⟨rfl, rfl⟩

/-- C4 witness: round trip on the depth-1 stack produced by `reset`. -/
theorem push_pop_roundtrip_witness :
    (NnueState.reset net0 ⟨[]⟩).stack ≠ [] ∧
      (((NnueState.reset net0 ⟨[]⟩).push).pop = NnueState.reset net0 ⟨[]⟩ ∧
        (((NnueState.reset net0 ⟨[]⟩).push).pop).curr = (NnueState.reset net0 ⟨[]⟩).curr) :=
  ⟨by simp [NnueState.reset], push_pop_roundtrip (NnueState.reset net0 ⟨[]⟩)
    (by simp [NnueState.reset])⟩

/-- C7 (amended): `pop` performs no defensive check; under the caller
contract depth > 1 it decreases the depth by exactly one and leaves a
non-empty stack, simply dropping the back element. -/
theorem pop_unchecked (s : NnueState) (h : 1 < s.depth) :
    1 ≤ (s.pop).depth ∧ (s.pop).depth = s.depth - 1 ∧ (s.pop).stack = s.stack.tail := by
  have hd : (s.pop).depth = s.depth - 1 := by
    simp [NnueState.pop, NnueState.depth, List.length_tail]
  exact ⟨by omega, hd, rfl⟩

/-- C7 witness: the amended pop contract on a depth-2 stack. -/
theorem pop_unchecked_witness :
    1 < ((NnueState.reset net0 ⟨[]⟩).push).depth ∧
      (1 ≤ (((NnueState.reset net0 ⟨[]⟩).push).pop).depth ∧
        (((NnueState.reset net0 ⟨[]⟩).push).pop).depth =
          ((NnueState.reset net0 ⟨[]⟩).push).depth - 1 ∧
        (((NnueState.reset net0 ⟨[]⟩).push).pop).stack =
          ((NnueState.reset net0 ⟨[]⟩).push).stack.tail) :=
  ⟨by decide, pop_unchecked ((NnueState.reset net0 ⟨[]⟩).push) (by decide)⟩

/-- C7 counterexample: popping the depth-1 stack produced by `reset` is not
detected — the code silently proceeds to an empty stack (depth 0), outside
the valid state space, rather than failing fast. -/
theorem pop_claim_false :
    ¬ (1 ≤ ((NnueState.reset net0 ⟨[]⟩).pop).depth) ∧
      ((NnueState.reset net0 ⟨[]⟩).pop).stack = [] :=
  ⟨by decide, rfl⟩

/-- C8: after `reset()` the stack holds exactly one accumulator, whose black
and white vectors both equal the network's hidden-bias vector element-wise,
whatever the prior contents were. -/
theorem reset_state (net : Network) (s : NnueState) (i : Nat) :
    (NnueState.reset net s).depth = 1 ∧
      ((NnueState.reset net s).curr).black i = net.featureBiases i ∧
      ((NnueState.reset net s).curr).white i = net.featureBiases i ∧
      (NnueState.reset net s).stack = [Accumulator.init net.featureBiases] :=
  ⟨rfl, rfl, rfl, rfl⟩

/-- Number of pushes in an operation sequence. -/
def countPush : List StackOp → Nat
  | [] => 0
  | StackOp.push :: rest => countPush rest + 1
  | StackOp.pop :: rest => countPush rest

/-- Number of pops in an operation sequence. -/
def countPop : List StackOp → Nat
  | [] => 0
  | StackOp.push :: rest => countPop rest
  | StackOp.pop :: rest => countPop rest + 1

/-- Along any legal operation sequence the depth change is pushes minus
pops, and the depth never drops below 1. -/
theorem runOps_depth_eq (ops : List StackOp) :
    ∀ s : NnueState, legalFrom s.depth ops = true → 1 ≤ s.depth →
      (runOps s ops).depth + countPop ops = s.depth + countPush ops ∧
        1 ≤ (runOps s ops).depth := by
  induction ops with
  | nil =>
    intro s _ h1
    exact ⟨by simp [runOps, countPush, countPop], h1⟩
  | cons op rest ih =>
    intro s h h1
    cases op with
    | push =>
      have hd : (s.push).depth = s.depth + 1 := by
        simp [NnueState.push, NnueState.depth]
      simp only [legalFrom] at h
      obtain ⟨hA, hB⟩ := ih s.push (by rw [hd]; exact h) (by omega)
      refine ⟨?_, ?_⟩
      · simp only [runOps, countPush, countPop]
        omega
      · simpa [runOps] using hB
    | pop =>
      simp only [legalFrom, Bool.and_eq_true, decide_eq_true_eq] at h
      obtain ⟨hgt, hrest⟩ := h
      have hd : (s.pop).depth = s.depth - 1 := by
        simp [NnueState.pop, NnueState.depth, List.length_tail]
      obtain ⟨hA, hB⟩ := ih s.pop (by rw [hd]; exact hrest) (by omega)
      refine ⟨?_, ?_⟩
      · simp only [runOps, countPush, countPop]
        omega
      · simpa [runOps] using hB

/-- C6: depth is exactly 1 right after `reset()`, each `push` adds exactly
1, each `pop` removes exactly 1, and along any sequence respecting the pop
precondition the final depth is 1 + pushes − pops and never drops below
1. -/
theorem depth_invariant (net : Network) (s t : NnueState) (ops : List StackOp)
    (h : legalFrom 1 ops = true) :
    (NnueState.reset net s).depth = 1 ∧
      (t.push).depth = t.depth + 1 ∧
      (t.pop).depth = t.depth - 1 ∧
      (runOps (NnueState.reset net s) ops).depth + countPop ops = 1 + countPush ops ∧
      1 ≤ (runOps (NnueState.reset net s) ops).depth := by
  have hr : (NnueState.reset net s).depth = 1 := rfl
  obtain ⟨hA, hB⟩ := runOps_depth_eq ops (NnueState.reset net s) (by rw [hr]; exact h)
    (by rw [hr])
  refine ⟨hr, ?_, ?_, by omega, hB⟩
  · simp [NnueState.push, NnueState.depth]
  · simp [NnueState.pop, NnueState.depth, List.length_tail]

/-- Concrete legal operation sequence for the depth-invariant witness. -/
def ops0 : List StackOp := [StackOp.push, StackOp.push, StackOp.pop, StackOp.pop]

/-- C6 witness: the depth invariant over push, push, pop, pop from the reset
state of the all-zero network. -/
theorem depth_invariant_witness :
    legalFrom 1 ops0 = true ∧
      ((NnueState.reset net0 ⟨[]⟩).depth = 1 ∧
        ((⟨[]⟩ : NnueState).push).depth = (⟨[]⟩ : NnueState).depth + 1 ∧
        ((⟨[]⟩ : NnueState).pop).depth = (⟨[]⟩ : NnueState).depth - 1 ∧
        (runOps (NnueState.reset net0 ⟨[]⟩) ops0).depth + countPop ops0 =
          1 + countPush ops0 ∧
        1 ≤ (runOps (NnueState.reset net0 ⟨[]⟩) ops0).depth) :=
  ⟨by decide, depth_invariant net0 ⟨[]⟩ ⟨[]⟩ ops0 (by decide)⟩

/-- C9: for every valid piece and square both feature indices are below 768,
so every weight-row element touched by the update loops (offset through
offset + Layer1Size − 1) lies inside the 768 × 768 feature-weight array. -/
theorem featureIndices_bounds (piece sq i : Nat) (hp : validPiece piece) (hs : sq < 64)
    (hi : i < Layer1Size) :
    (featureIndices piece sq).1 < 768 ∧ (featureIndices piece sq).2 < 768 ∧
      (featureIndices piece sq).1 * Layer1Size + i < InputSize * Layer1Size ∧
      (featureIndices piece sq).2 * Layer1Size + i < InputSize * Layer1Size := by
  obtain ⟨hp16, ht⟩ := hp
  have hc := getColor_le_one piece hp16
  have hx : sq ^^^ 56 < 64 := Nat.xor_lt_two_pow (n := 6) hs (by decide)
  rw [featureIndices_eq piece sq hp16 ht hs]
  simp only [Layer1Size, InputSize] at hi ⊢
  refine ⟨?_, ?_, ?_, ?_⟩ <;> dsimp only <;> omega

/-- C9 witness: bounds at the white pawn on square 0, hidden index 0. -/
theorem featureIndices_bounds_witness :
    validPiece 8 ∧ (0 : Nat) < 64 ∧ (0 : Nat) < Layer1Size ∧
      ((featureIndices 8 0).1 < 768 ∧ (featureIndices 8 0).2 < 768 ∧
        (featureIndices 8 0).1 * Layer1Size + 0 < InputSize * Layer1Size ∧
        (featureIndices 8 0).2 * Layer1Size + 0 < InputSize * Layer1Size) :=
  ⟨⟨by decide, by decide⟩, by decide, by decide,
    featureIndices_bounds 8 0 0 ⟨by decide, by decide⟩ (by decide) (by decide)⟩

end eval

end clarity
